import Mathlib

/- Shallow embedding of the habit tracker core (habit_tracker.py, analytics.py).

   Calendar dates are modelled as integers (days since an arbitrary epoch): the
   code stores ISO "YYYY-MM-DD" strings and every SQL comparison and ORDER BY on
   the date column is the lexicographic string order, which agrees with
   chronological order for such strings.  Times and creation timestamps are kept
   as opaque strings; the code never uses them in any decision. -/

/- One row of the habits table: habits(name PK, periodicity, created_at, streak). -/
structure HabitRow where
  name : String
  periodicity : String
  created_at : String
  streak : Int
deriving DecidableEq

/- One row of the completions table:
   completions(habit_name, date, time, PRIMARY KEY (habit_name, date)). -/
structure CompletionRow where
  habit_name : String
  date : Int
  time : String
deriving DecidableEq

/- The database state: the two tables created by setup_database. -/
structure DB where
  habits : List HabitRow
  completions : List CompletionRow
deriving DecidableEq

/- Outcome of complete_task: early return with the "already been completed"
   message, a successful insert plus streak refresh, or a propagated
   sqlite3.IntegrityError from inserting a duplicate (habit_name, date) key. -/
inductive CompleteResult where
  | alreadySatisfied
  | recorded
  | integrityError
deriving DecidableEq

/- Insertion into a list kept in ascending order. -/
def insertSorted (d : Int) : List Int → List Int
  | [] => [d]
  | x :: xs => if d ≤ x then d :: x :: xs else x :: insertSorted d xs

/- ORDER BY date ASC over a bag of dates. -/
def sortAsc : List Int → List Int
  | [] => []
  | x :: xs => insertSorted x (sortAsc xs)

/- SQL aggregate MAX over a column: NULL (none) on an empty table. -/
def sqlMax : List Int → Option Int
  | [] => none
  | x :: xs =>
    match sqlMax xs with
    | none => some x
    | some m => some (max x m)

/- SELECT date FROM completions WHERE habit_name = ? ORDER BY date ASC
   (the fetch at the top of update_streak). -/
def completionDatesAsc (db : DB) (name : String) : List Int :=
  sortAsc (((db.completions.filter (fun c => decide (c.habit_name = name))).map
    (fun c => c.date)))

/- SELECT date FROM completions WHERE habit_name = ? ORDER BY date DESC LIMIT 1:
   the most recent completion date, i.e. the maximum. -/
def lastCompletionDate (db : DB) (name : String) : Option Int :=
  sqlMax ((db.completions.filter (fun c => decide (c.habit_name = name))).map
    (fun c => c.date))

/- Habit.is_completed_within_7_days: compares the most recent completion date
   against datetime.now().date(), the parameter today here. -/
def is_completed_within_7_days (db : DB) (name : String) (today : Int) : Bool :=
  match lastCompletionDate db name with
  | some last => decide (today - last < 7)
  | none => false

/- Membership test for the completions primary key (habit_name, date). -/
def completionExists (db : DB) (name : String) (d : Int) : Bool :=
  db.completions.any (fun c => decide (c.habit_name = name ∧ c.date = d))

/- Habit.is_completed_today: SELECT 1 FROM completions WHERE habit_name = ? AND
   date = ? with today's date — the same membership test the primary key uses. -/
def is_completed_today (db : DB) (name : String) (today : Int) : Bool :=
  completionExists db name today

/- The plain INSERT INTO completions of complete_task.  SQLite enforces
   PRIMARY KEY (habit_name, date): a duplicate raises sqlite3.IntegrityError,
   modelled as the error case; the with-block then rolls back and re-raises. -/
def insertCompletion (db : DB) (name : String) (d : Int) (t : String) :
    Except Unit DB :=
  if completionExists db name d then Except.error ()
  else Except.ok { db with completions := db.completions ++ [⟨name, d, t⟩] }

/- UPDATE habits SET streak = ? WHERE name = ?. -/
def setStreak (db : DB) (name : String) (s : Int) : DB :=
  { db with
    habits := db.habits.map fun h =>
      if h.name = name then { h with streak := s } else h }

/- The for-loop of update_streak: walks the remaining dates with the running
   streak and expected_date; break returns the streak accumulated so far.
   A periodicity matching neither branch leaves both variables untouched. -/
def streakLoop (p : String) (streak : Nat) (expected : Int) : List Int → Nat
  | [] => streak
  | d :: rest =>
    if p = "daily" then
      if d = expected + 1 then streakLoop p (streak + 1) d rest else streak
    else if p = "weekly" then
      if 7 ≤ d - expected then streakLoop p (streak + 1) d rest else streak
    else streakLoop p streak expected rest

/- The streak value update_streak computes from the ascending date list:
   0 when empty, otherwise seeded at 1 on the earliest date and scanned. -/
def computeStreak (p : String) : List Int → Nat
  | [] => 0
  | d :: rest => streakLoop p 1 d rest

/- Habit.update_streak: fetches the ascending dates, sets self.streak to 0 and
   returns early (no UPDATE executed) when there are none; otherwise runs the
   loop and persists the result.  Returns the new state and self.streak. -/
def update_streak (db : DB) (name p : String) : DB × Nat :=
  if completionDatesAsc db name = [] then (db, 0)
  else
    (setStreak db name (computeStreak p (completionDatesAsc db name)),
     computeStreak p (completionDatesAsc db name))

/- The tail of complete_task after the guards: insert the completion for
   (date or now).date(), then refresh the streak.  A duplicate key raises,
   leaving the database unchanged and skipping update_streak. -/
def completeInsert (db : DB) (name p : String) (today : Int) (t : String)
    (date : Option Int) : DB × CompleteResult :=
  match insertCompletion db name (date.getD today) t with
  | Except.error _ => (db, CompleteResult.integrityError)
  | Except.ok db1 => ((update_streak db1 name p).1, CompleteResult.recorded)

/- Habit.complete_task(date=None).  today is datetime.now().date().  The weekly
   guard tests is_completed_within_7_days (anchored at today); the daily guard
   additionally requires that no explicit date argument was passed. -/
def complete_task (db : DB) (name p : String) (today : Int) (t : String)
    (date : Option Int) : DB × CompleteResult :=
  if p = "weekly" then
    if is_completed_within_7_days db name today then
      (db, CompleteResult.alreadySatisfied)
    else completeInsert db name p today t date
  else if p = "daily" ∧ is_completed_today db name today = true ∧ date = none then
    (db, CompleteResult.alreadySatisfied)
  else completeInsert db name p today t date

/- Habit.delete: DELETE FROM habits WHERE name = ? and
   DELETE FROM completions WHERE habit_name = ?. -/
def delete (db : DB) (name : String) : DB :=
  { habits := db.habits.filter (fun h => decide (¬ h.name = name)),
    completions := db.completions.filter (fun c => decide (¬ c.habit_name = name)) }

/- analytics.get_incomplete_habits_for_today, with today passed explicitly:
   daily habits whose name is not in the set of names completed today, then
   weekly habits whose name is not in the set of names with a completion dated
   on or after today - 7 days. -/
def get_incomplete_habits_for_today (db : DB) (today : Int) : List HabitRow :=
  (db.habits.filter (fun h =>
      decide (h.periodicity = "daily") &&
      ! db.completions.any (fun c =>
          decide (c.date = today) && decide (c.habit_name = h.name)))) ++
  (db.habits.filter (fun h =>
      decide (h.periodicity = "weekly") &&
      ! db.completions.any (fun c =>
          decide (today - 7 ≤ c.date) && decide (c.habit_name = h.name))))

/- analytics.longest_streak_all_habits: SELECT MAX(streak) FROM habits always
   yields exactly one row, holding NULL when the table is empty; the code
   returns that cell (its else-0 branch is unreachable). -/
def longest_streak_all_habits (db : DB) : Option Int :=
  match (some (sqlMax (db.habits.map (fun h => h.streak))) : Option (Option Int)) with
  | some v => v
  | none => some 0

/- analytics.longest_streak_for_habit: SELECT streak FROM habits WHERE name = ?. -/
def longest_streak_for_habit (db : DB) (name : String) : Option Int :=
  match db.habits.find? (fun h => decide (h.name = name)) with
  | some h => some h.streak
  | none => none

/- Number of completion rows with the given primary key. -/
def countCompletionRows (db : DB) (name : String) (d : Int) : Nat :=
  (db.completions.filter (fun c => decide (c.habit_name = name ∧ c.date = d))).length

/- The committed states produced by the tail of complete_task, in commit order:
   the insert commits in its own with-block, then update_streak opens a second
   connection and commits the streak UPDATE separately. -/
def commitsOfInsert (db : DB) (name p : String) (today : Int) (t : String)
    (date : Option Int) : List DB :=
  match insertCompletion db name (date.getD today) t with
  | Except.error _ => []
  | Except.ok db1 => [db1, (update_streak db1 name p).1]

/- The committed states of a complete_task call, in commit order. -/
def complete_task_commits (db : DB) (name p : String) (today : Int) (t : String)
    (date : Option Int) : List DB :=
  if p = "weekly" then
    if is_completed_within_7_days db name today then []
    else commitsOfInsert db name p today t date
  else if p = "daily" ∧ is_completed_today db name today = true ∧ date = none then []
  else commitsOfInsert db name p today t date

/- States the store can be left in when a storage fault stops execution at any
   transaction boundary: the initial state or the state after any commit. -/
def faultReachable (db0 : DB) (commits : List DB) : List DB :=
  db0 :: commits

/- Modelled from the spec: the streak a daily scan yields on an ascending date
   list — the length of the longest prefix in which each date is exactly one
   day after its predecessor; the scan breaks at the first gap and never
   resumes. -/
def consecutivePrefixLen : List Int → Nat
  | [] => 0
  | [_] => 1
  | a :: b :: rest => if b = a + 1 then 1 + consecutivePrefixLen (b :: rest) else 1

/- Modelled from the spec: the streak a weekly scan yields — the length of the
   longest prefix in which each date is at least 7 days after its predecessor
   (any gap of 7 or more counts as on schedule); it breaks at the first date
   closer than 7 days to the previous accepted one. -/
def weeklyPrefixLen : List Int → Nat
  | [] => 0
  | [_] => 1
  | a :: b :: rest => if 7 ≤ b - a then 1 + weeklyPrefixLen (b :: rest) else 1

/- Example states used by the concrete witnesses and counterexamples. -/

def exDbRun : DB :=
  { habits := [⟨"run", "daily", "", 0⟩],
    completions := [⟨"run", 0, "08:00:00"⟩, ⟨"run", -1, "08:00:00"⟩,
                    ⟨"run", -3, "08:00:00"⟩] }

def exDbRead : DB :=
  { habits := [⟨"read", "weekly", "", 0⟩],
    completions := [⟨"read", 0, "08:00:00"⟩, ⟨"read", 7, "08:00:00"⟩,
                    ⟨"read", 21, "08:00:00"⟩] }

def exDbWeekly : DB :=
  { habits := [⟨"h", "weekly", "", 1⟩],
    completions := [⟨"h", 50, "09:00:00"⟩] }

def exDbDaily : DB :=
  { habits := [⟨"h", "daily", "", 1⟩],
    completions := [⟨"h", 10, "09:00:00"⟩] }

def exDbDailyMid : DB :=
  { habits := [⟨"h", "daily", "", 1⟩],
    completions := [⟨"h", 10, "09:00:00"⟩, ⟨"h", 11, "10:00:00"⟩] }

def exDbFresh : DB :=
  { habits := [⟨"m", "daily", "", 0⟩], completions := [] }

def exDbStreaks : DB :=
  { habits := [⟨"a", "daily", "", 10⟩, ⟨"b", "weekly", "", 4⟩], completions := [] }

def exDbMonthly : DB :=
  { habits := [⟨"h", "monthly", "", 5⟩], completions := [] }

def exDbMonthlyFull : DB :=
  { habits := [⟨"h", "monthly", "", 5⟩],
    completions := [⟨"h", 0, "09:00:00"⟩, ⟨"h", 100, "09:00:00"⟩] }

/- Helper lemmas about the sort used to model ORDER BY date ASC. -/

theorem insertSorted_length (d : Int) (l : List Int) :
    (insertSorted d l).length = l.length + 1 := by
  induction l with
  | nil => rfl
  | cons x xs ih =>
      by_cases h : d ≤ x
      · simp [insertSorted, h]
      · simp [insertSorted, h, ih]

theorem sortAsc_length (l : List Int) : (sortAsc l).length = l.length := by
  induction l with
  | nil => rfl
  | cons x xs ih => simp [sortAsc, insertSorted_length, ih]

theorem sortAsc_eq_nil_iff (l : List Int) : sortAsc l = [] ↔ l = [] := by
  constructor
  · intro h
    have hl := sortAsc_length l
    rw [h] at hl
    exact List.length_eq_zero.mp hl.symm
  · intro h
    rw [h]
    rfl

/- Helper lemmas about the model of SQL MAX. -/

theorem sqlMax_eq_none (l : List Int) (h : sqlMax l = none) : l = [] := by
  cases l with
  | nil => rfl
  | cons x xs =>
      cases hx : sqlMax xs with
      | none => simp [sqlMax, hx] at h
      | some m => simp [sqlMax, hx] at h

theorem sqlMax_ne_none (l : List Int) (h : l ≠ []) : ∃ m, sqlMax l = some m := by
  cases l with
  | nil => exact absurd rfl h
  | cons x xs =>
      cases hx : sqlMax xs with
      | none => exact ⟨x, by simp [sqlMax, hx]⟩
      | some m => exact ⟨max x m, by simp [sqlMax, hx]⟩

theorem sqlMax_le (l : List Int) (m : Int) (hm : sqlMax l = some m) :
    ∀ x ∈ l, x ≤ m := by
  induction l generalizing m with
  | nil => simp [sqlMax] at hm
  | cons y ys ih =>
      intro x hx
      cases hys : sqlMax ys with
      | none =>
          have hnil : ys = [] := sqlMax_eq_none ys hys
          subst hnil
          simp [sqlMax] at hm
          simp at hx
          omega
      | some k =>
          simp [sqlMax, hys] at hm
          rcases List.mem_cons.mp hx with h | h
          · rw [h, ← hm]
            exact le_max_left y k
          · have hk := ih k hys x h
            rw [← hm]
            exact le_trans hk (le_max_right y k)

theorem sqlMax_mem (l : List Int) (m : Int) (hm : sqlMax l = some m) : m ∈ l := by
  induction l generalizing m with
  | nil => simp [sqlMax] at hm
  | cons y ys ih =>
      cases hys : sqlMax ys with
      | none =>
          simp [sqlMax, hys] at hm
          simp [hm]
      | some k =>
          simp [sqlMax, hys] at hm
          rcases max_choice y k with h | h
          · rw [h] at hm
            rw [← hm]
            exact List.mem_cons_self y ys
          · rw [h] at hm
            rw [← hm]
            exact List.mem_cons_of_mem y (ih k hys)

/- Unfolding lemmas for the update_streak scanning loop. -/

theorem streakLoop_daily_cons (s : Nat) (e d : Int) (rest : List Int) :
    streakLoop "daily" s e (d :: rest) =
      if d = e + 1 then streakLoop "daily" (s + 1) d rest else s := by
  simp [streakLoop]

theorem streakLoop_weekly_cons (s : Nat) (e d : Int) (rest : List Int) :
    streakLoop "weekly" s e (d :: rest) =
      if 7 ≤ d - e then streakLoop "weekly" (s + 1) d rest else s := by
  simp [streakLoop]

theorem streakLoop_daily_eq (l : List Int) : ∀ (e : Int) (s : Nat),
    streakLoop "daily" s e l + 1 = s + consecutivePrefixLen (e :: l) := by
  induction l with
  | nil =>
      intro e s
      simp [streakLoop, consecutivePrefixLen]
  | cons d rest ih =>
      intro e s
      rw [streakLoop_daily_cons]
      by_cases hd : d = e + 1
      · rw [if_pos hd]
        have h1 := ih d (s + 1)
        simp only [consecutivePrefixLen, if_pos hd]
        omega
      · rw [if_neg hd]
        simp only [consecutivePrefixLen, if_neg hd]

theorem computeStreak_daily (l : List Int) :
    computeStreak "daily" l = consecutivePrefixLen l := by
  cases l with
  | nil => rfl
  | cons d rest =>
      have h := streakLoop_daily_eq rest d 1
      simp only [computeStreak]
      omega

theorem streakLoop_weekly_eq (l : List Int) : ∀ (e : Int) (s : Nat),
    streakLoop "weekly" s e l + 1 = s + weeklyPrefixLen (e :: l) := by
  induction l with
  | nil =>
      intro e s
      simp [streakLoop, weeklyPrefixLen]
  | cons d rest ih =>
      intro e s
      rw [streakLoop_weekly_cons]
      by_cases hd : 7 ≤ d - e
      · rw [if_pos hd]
        have h1 := ih d (s + 1)
        simp only [weeklyPrefixLen, if_pos hd]
        omega
      · rw [if_neg hd]
        simp only [weeklyPrefixLen, if_neg hd]

theorem computeStreak_weekly (l : List Int) :
    computeStreak "weekly" l = weeklyPrefixLen l := by
  cases l with
  | nil => rfl
  | cons d rest =>
      have h := streakLoop_weekly_eq rest d 1
      simp only [computeStreak]
      omega

theorem streakLoop_other (p : String) (hd : ¬ p = "daily") (hw : ¬ p = "weekly")
    (l : List Int) : ∀ (e : Int) (s : Nat), streakLoop p s e l = s := by
  induction l with
  | nil => intro e s; rfl
  | cons d rest ih =>
      intro e s
      simp only [streakLoop, if_neg hd, if_neg hw]
      exact ih e s

theorem computeStreak_other (p : String) (hd : ¬ p = "daily") (hw : ¬ p = "weekly")
    (d : Int) (rest : List Int) : computeStreak p (d :: rest) = 1 := by
  simp only [computeStreak]
  exact streakLoop_other p hd hw rest d 1

theorem consecutivePrefixLen_pos (d : Int) (rest : List Int) :
    1 ≤ consecutivePrefixLen (d :: rest) := by
  cases rest with
  | nil => simp [consecutivePrefixLen]
  | cons b l =>
      by_cases h : b = d + 1
      · simp [consecutivePrefixLen, h]
      · simp [consecutivePrefixLen, h]

theorem weeklyPrefixLen_pos (d : Int) (rest : List Int) :
    1 ≤ weeklyPrefixLen (d :: rest) := by
  cases rest with
  | nil => simp [weeklyPrefixLen]
  | cons b l =>
      by_cases h : 7 ≤ b - d
      · simp [weeklyPrefixLen, h]
      · simp [weeklyPrefixLen, h]

/- Helper lemmas about the storage operations. -/

theorem setStreak_completions (db : DB) (name : String) (s : Int) :
    (setStreak db name s).completions = db.completions := rfl

theorem setStreak_streak (db : DB) (name : String) (s : Int) (h' : HabitRow)
    (hmem : h' ∈ (setStreak db name s).habits) (hname : h'.name = name) :
    h'.streak = s := by
  have hmem' : h' ∈ db.habits.map
      (fun h => if h.name = name then { h with streak := s } else h) := hmem
  rcases List.mem_map.mp hmem' with ⟨h, hh, heq⟩
  by_cases hn : h.name = name
  · rw [if_pos hn] at heq
    rw [← heq]
  · rw [if_neg hn] at heq
    rw [← heq] at hname
    exact absurd hname hn

theorem update_streak_completions (db : DB) (name p : String) :
    ((update_streak db name p).1).completions = db.completions := by
  unfold update_streak
  by_cases h : completionDatesAsc db name = []
  · rw [if_pos h]
  · rw [if_neg h]
    exact setStreak_completions db name _

theorem update_streak_nonempty (db : DB) (name p : String)
    (h : ¬ completionDatesAsc db name = []) :
    update_streak db name p =
      (setStreak db name (computeStreak p (completionDatesAsc db name)),
       computeStreak p (completionDatesAsc db name)) := by
  unfold update_streak
  rw [if_neg h]

theorem completionDatesAsc_congr (db db' : DB) (name : String)
    (h : db'.completions = db.completions) :
    completionDatesAsc db' name = completionDatesAsc db name := by
  unfold completionDatesAsc
  rw [h]

theorem insertCompletion_ok (db db1 : DB) (name : String) (d : Int) (t : String)
    (h : insertCompletion db name d t = Except.ok db1) :
    completionExists db name d = false ∧
      db1 = { db with completions := db.completions ++ [⟨name, d, t⟩] } := by
  unfold insertCompletion at h
  by_cases hex : completionExists db name d = true
  · rw [if_pos hex] at h
    simp at h
  · rw [if_neg hex] at h
    simp at h
    exact ⟨Bool.not_eq_true _ ▸ hex, h.symm⟩

theorem insertCompletion_error (db : DB) (name : String) (d : Int) (t : String)
    (h : completionExists db name d = true) :
    insertCompletion db name d t = Except.error () := by
  unfold insertCompletion
  rw [if_pos h]

theorem completionDatesAsc_append_ne_nil (db : DB) (name : String) (d : Int)
    (t : String) :
    ¬ completionDatesAsc
        { db with completions := db.completions ++ [⟨name, d, t⟩] } name = [] := by
  intro h
  unfold completionDatesAsc at h
  rw [sortAsc_eq_nil_iff] at h
  simp [List.filter_append] at h

theorem completeInsert_ne_alreadySatisfied (db : DB) (name p : String)
    (today : Int) (t : String) (date : Option Int) :
    ¬ (completeInsert db name p today t date).2 = CompleteResult.alreadySatisfied := by
  unfold completeInsert
  cases h : insertCompletion db name (date.getD today) t with
  | error e => simp
  | ok db1 => simp

theorem complete_task_recorded (db : DB) (name p : String) (today : Int)
    (t : String) (date : Option Int)
    (h : (complete_task db name p today t date).2 = CompleteResult.recorded) :
    ∃ db1, insertCompletion db name (date.getD today) t = Except.ok db1 ∧
      (complete_task db name p today t date).1 = (update_streak db1 name p).1 := by
  unfold complete_task at h ⊢
  by_cases hw : p = "weekly"
  · rw [if_pos hw] at h ⊢
    by_cases h7 : is_completed_within_7_days db name today = true
    · rw [if_pos h7] at h
      simp at h
    · rw [if_neg h7] at h ⊢
      unfold completeInsert at h ⊢
      cases hins : insertCompletion db name (date.getD today) t with
      | error e =>
          rw [hins] at h
          simp at h
      | ok db1 =>
          exact ⟨db1, rfl, rfl⟩
  · rw [if_neg hw] at h ⊢
    by_cases hg : p = "daily" ∧ is_completed_today db name today = true ∧ date = none
    · rw [if_pos hg] at h
      simp at h
    · rw [if_neg hg] at h ⊢
      unfold completeInsert at h ⊢
      cases hins : insertCompletion db name (date.getD today) t with
      | error e =>
          rw [hins] at h
          simp at h
      | ok db1 =>
          exact ⟨db1, rfl, rfl⟩

theorem within7_iff (db : DB) (name : String) (today : Int) :
    is_completed_within_7_days db name today = true ↔
      ∃ last, lastCompletionDate db name = some last ∧ today - last < 7 := by
  unfold is_completed_within_7_days
  cases h : lastCompletionDate db name with
  | none =>
      simp
  | some d =>
      simp

/-- C1: for a daily habit with a non-empty completion history, update_streak
seeds the streak at 1 on the earliest date of the ascending deduplicated date
list, increments it only on a date exactly one day after the previous accepted
date, and stops scanning at the first non-consecutive date without resuming:
the returned value, also persisted into the habit's row, is the length of the
longest consecutive prefix of the date list (so completions on days 0, -1, -3
give streak 1, as the witness shows). -/
theorem update_streak_daily_consecutive_run (db : DB) (name : String)
    (hne : ¬ completionDatesAsc db name = []) :
    (update_streak db name "daily").2 =
      consecutivePrefixLen (completionDatesAsc db name) ∧
    1 ≤ (update_streak db name "daily").2 ∧
    (∀ h' ∈ (update_streak db name "daily").1.habits, h'.name = name →
      h'.streak = (consecutivePrefixLen (completionDatesAsc db name) : Int)) := by
  rw [update_streak_nonempty db name "daily" hne]
  refine ⟨computeStreak_daily _, ?_, ?_⟩
  · show 1 ≤ computeStreak "daily" (completionDatesAsc db name)
    obtain ⟨d, rest, hdr⟩ := List.exists_cons_of_ne_nil hne
    rw [hdr, computeStreak_daily]
    exact consecutivePrefixLen_pos d rest
  · intro h' hmem hname
    rw [← computeStreak_daily]
    exact setStreak_streak db name _ h' hmem hname

/-- Witness for C1: the habit completed on days 0, -1 and -3 (day -2 skipped)
has a non-empty history, satisfies the theorem, and its recomputed streak is 1. -/
theorem update_streak_daily_consecutive_run_witness :
    (¬ completionDatesAsc exDbRun "run" = []) ∧
    ((update_streak exDbRun "run" "daily").2 =
        consecutivePrefixLen (completionDatesAsc exDbRun "run") ∧
      1 ≤ (update_streak exDbRun "run" "daily").2 ∧
      (∀ h' ∈ (update_streak exDbRun "run" "daily").1.habits, h'.name = "run" →
        h'.streak = (consecutivePrefixLen (completionDatesAsc exDbRun "run") : Int))) ∧
    (update_streak exDbRun "run" "daily").2 = 1 :=
  ⟨by decide, update_streak_daily_consecutive_run exDbRun "run" (by decide),
   by decide⟩

/-- C2: for a weekly habit with a non-empty completion history, update_streak
continues the streak at a subsequent date exactly when that date is at least 7
days after the previous accepted date — any gap of 7 or more days counts as on
schedule, with no upper bound — and breaks only on a date closer than 7 days:
the returned value, also persisted, is the length of the longest prefix whose
consecutive gaps are all at least 7 days. -/
theorem update_streak_weekly_gap_policy (db : DB) (name : String)
    (hne : ¬ completionDatesAsc db name = []) :
    (update_streak db name "weekly").2 =
      weeklyPrefixLen (completionDatesAsc db name) ∧
    (∀ (a b : Int) (rest : List Int), computeStreak "weekly" (a :: b :: rest) =
      if 7 ≤ b - a then 1 + computeStreak "weekly" (b :: rest) else 1) ∧
    (∀ h' ∈ (update_streak db name "weekly").1.habits, h'.name = name →
      h'.streak = (weeklyPrefixLen (completionDatesAsc db name) : Int)) := by
  rw [update_streak_nonempty db name "weekly" hne]
  refine ⟨computeStreak_weekly _, ?_, ?_⟩
  · intro a b rest
    rw [computeStreak_weekly, computeStreak_weekly]
    by_cases hab : 7 ≤ b - a
    · rw [if_pos hab]
      simp only [weeklyPrefixLen, if_pos hab]
    · rw [if_neg hab]
      simp only [weeklyPrefixLen, if_neg hab]
  · intro h' hmem hname
    rw [← computeStreak_weekly]
    exact setStreak_streak db name _ h' hmem hname

/-- Witness for C2: weekly completions on days 0, 7, 21 — the 14-day gap between
7 and 21 counts as on schedule — satisfy the theorem and give streak 3. -/
theorem update_streak_weekly_gap_policy_witness :
    (¬ completionDatesAsc exDbRead "read" = []) ∧
    ((update_streak exDbRead "read" "weekly").2 =
        weeklyPrefixLen (completionDatesAsc exDbRead "read") ∧
      (∀ (a b : Int) (rest : List Int), computeStreak "weekly" (a :: b :: rest) =
        if 7 ≤ b - a then 1 + computeStreak "weekly" (b :: rest) else 1) ∧
      (∀ h' ∈ (update_streak exDbRead "read" "weekly").1.habits, h'.name = "read" →
        h'.streak = (weeklyPrefixLen (completionDatesAsc exDbRead "read") : Int))) ∧
    completionDatesAsc exDbRead "read" = [0, 7, 21] ∧
    (update_streak exDbRead "read" "weekly").2 = 3 :=
  ⟨by decide, update_streak_weekly_gap_policy exDbRead "read" (by decide),
   by decide, by decide⟩

/-- C5: get_incomplete_habits_for_today returns a habit exactly when it is a
daily habit with no completion on the reference date, or a weekly habit with no
completion dated on or after the reference date minus 7 days. -/
theorem get_incomplete_habits_membership (db : DB) (today : Int) (h : HabitRow) :
    h ∈ get_incomplete_habits_for_today db today ↔
      h ∈ db.habits ∧
      ((h.periodicity = "daily" ∧
          ¬ ∃ c ∈ db.completions, c.date = today ∧ c.habit_name = h.name) ∨
       (h.periodicity = "weekly" ∧
          ¬ ∃ c ∈ db.completions, today - 7 ≤ c.date ∧ c.habit_name = h.name)) := by
  unfold get_incomplete_habits_for_today
  simp only [List.mem_append, List.mem_filter, Bool.and_eq_true,
    decide_eq_true_eq, Bool.not_eq_true', List.any_eq_false, not_exists]
  constructor
  · rintro (⟨hmem, hdaily, hno⟩ | ⟨hmem, hweekly, hno⟩)
    · exact ⟨hmem, Or.inl ⟨hdaily, fun c hc => hno c hc.1 hc.2⟩⟩
    · exact ⟨hmem, Or.inr ⟨hweekly, fun c hc => hno c hc.1 hc.2⟩⟩
  · rintro ⟨hmem, ⟨hdaily, hno⟩ | ⟨hweekly, hno⟩⟩
    · exact Or.inl ⟨hmem, hdaily, fun c hc hp => hno c ⟨hc, hp⟩⟩
    · exact Or.inr ⟨hmem, hweekly, fun c hc hp => hno c ⟨hc, hp⟩⟩

/-- Witness for C5: in a state with one daily habit completed on day 10, the
habit is listed as incomplete for reference date 11 but not for 10. -/
theorem get_incomplete_habits_membership_witness :
    ((⟨"h", "daily", "", 1⟩ : HabitRow) ∈ get_incomplete_habits_for_today exDbDaily 11 ↔
      (⟨"h", "daily", "", 1⟩ : HabitRow) ∈ exDbDaily.habits ∧
      ((("daily" : String) = "daily" ∧
          ¬ ∃ c ∈ exDbDaily.completions, c.date = 11 ∧ c.habit_name = "h") ∨
       (("daily" : String) = "weekly" ∧
          ¬ ∃ c ∈ exDbDaily.completions, (11 : Int) - 7 ≤ c.date ∧ c.habit_name = "h"))) ∧
    (⟨"h", "daily", "", 1⟩ : HabitRow) ∈ get_incomplete_habits_for_today exDbDaily 11 ∧
    ¬ (⟨"h", "daily", "", 1⟩ : HabitRow) ∈ get_incomplete_habits_for_today exDbDaily 10 :=
  ⟨get_incomplete_habits_membership exDbDaily 11 ⟨"h", "daily", "", 1⟩,
   by decide, by decide⟩

/-- Counterexample to C6: with no habits, longest_streak_all_habits returns the
SQL NULL (Python None), not the integer 0 — SELECT MAX(streak) always yields
exactly one row, so the else-0 branch never executes. -/
theorem longest_streak_all_habits_empty_is_none :
    longest_streak_all_habits { habits := [], completions := [] } = none ∧
    ¬ longest_streak_all_habits { habits := [], completions := [] } = some 0 := by
  exact ⟨rfl, by decide⟩

/-- C6 as amended: longest_streak_all_habits returns the maximum of the cached
streak field over all habits when at least one habit exists, and returns None
(the single NULL cell of SELECT MAX on an empty table) when no habits exist,
matching the function's own docstring. -/
theorem longest_streak_all_habits_max (db : DB) :
    (db.habits = [] → longest_streak_all_habits db = none) ∧
    (¬ db.habits = [] → ∃ m, longest_streak_all_habits db = some m ∧
        (∀ h' ∈ db.habits, h'.streak ≤ m) ∧ ∃ h' ∈ db.habits, h'.streak = m) := by
  constructor
  · intro h
    unfold longest_streak_all_habits
    rw [h]
    rfl
  · intro h
    have hne : ¬ db.habits.map (fun h' => h'.streak) = [] := by
      simp [h]
    obtain ⟨m, hm⟩ := sqlMax_ne_none _ hne
    refine ⟨m, ?_, ?_, ?_⟩
    · show sqlMax (db.habits.map (fun h' => h'.streak)) = some m
      exact hm
    · intro h' hmem
      exact sqlMax_le _ m hm h'.streak (List.mem_map_of_mem _ hmem)
    · rcases List.mem_map.mp (sqlMax_mem _ m hm) with ⟨h', hmem, heq⟩
      exact ⟨h', hmem, heq⟩

/-- Witness for C6: over habits with cached streaks 10 and 4 the maximum is 10,
and it is attained. -/
theorem longest_streak_all_habits_max_witness :
    (¬ exDbStreaks.habits = []) ∧
    (∃ m, longest_streak_all_habits exDbStreaks = some m ∧
        (∀ h' ∈ exDbStreaks.habits, h'.streak ≤ m) ∧
        ∃ h' ∈ exDbStreaks.habits, h'.streak = m) ∧
    longest_streak_all_habits exDbStreaks = some 10 :=
  ⟨by decide, (longest_streak_all_habits_max exDbStreaks).2 (by decide), by decide⟩

/-- Counterexample to C10: for a habit with unrecognized periodicity "monthly"
and an empty completion history, update_streak returns before reaching the SQL
UPDATE, so the claimed streak 0 is never persisted — the stored streak stays 5. -/
theorem update_streak_unknown_empty_not_persisted :
    update_streak exDbMonthly "h" "monthly" = (exDbMonthly, 0) ∧
    longest_streak_for_habit (update_streak exDbMonthly "h" "monthly").1 "h" = some 5 ∧
    ¬ (5 : Int) = 0 := by
  decide

/-- C10 as amended: for a periodicity that is neither daily nor weekly, the
scanning loop matches no branch, so for a non-empty history update_streak
computes and persists streak 1 regardless of the dates; for an empty history it
sets the in-memory streak to 0 but returns before the database write, leaving
the stored value untouched. -/
theorem update_streak_unknown_periodicity (db : DB) (name p : String)
    (hd : ¬ p = "daily") (hw : ¬ p = "weekly") :
    (¬ completionDatesAsc db name = [] →
        (update_streak db name p).2 = 1 ∧
        (∀ h' ∈ (update_streak db name p).1.habits, h'.name = name →
          h'.streak = (1 : Int))) ∧
    (completionDatesAsc db name = [] → update_streak db name p = (db, 0)) := by
  constructor
  · intro hne
    rw [update_streak_nonempty db name p hne]
    obtain ⟨d, rest, hdr⟩ := List.exists_cons_of_ne_nil hne
    constructor
    · show computeStreak p (completionDatesAsc db name) = 1
      rw [hdr]
      exact computeStreak_other p hd hw d rest
    · intro h' hmem hname
      have hs := setStreak_streak db name _ h' hmem hname
      rw [hdr, computeStreak_other p hd hw d rest] at hs
      exact hs
  · intro hnil
    unfold update_streak
    rw [if_pos hnil]

/-- Witness for C10: a "monthly" habit with completions on days 0 and 100 gets
streak 1, persisted into its row. -/
theorem update_streak_unknown_periodicity_witness :
    (¬ ("monthly" : String) = "daily") ∧ (¬ ("monthly" : String) = "weekly") ∧
    (¬ completionDatesAsc exDbMonthlyFull "h" = []) ∧
    ((update_streak exDbMonthlyFull "h" "monthly").2 = 1 ∧
      (∀ h' ∈ (update_streak exDbMonthlyFull "h" "monthly").1.habits,
        h'.name = "h" → h'.streak = (1 : Int))) ∧
    longest_streak_for_habit (update_streak exDbMonthlyFull "h" "monthly").1 "h" =
      some 1 :=
  ⟨by decide, by decide, by decide,
   (update_streak_unknown_periodicity exDbMonthlyFull "h" "monthly" (by decide)
      (by decide)).1 (by decide),
   by decide⟩

/- Further helpers for the complete_task claims. -/

theorem complete_task_daily_unfold (db : DB) (name : String) (today : Int)
    (t : String) (date : Option Int) :
    complete_task db name "daily" today t date =
      if ("daily" : String) = "daily" ∧ is_completed_today db name today = true ∧
          date = none then
        (db, CompleteResult.alreadySatisfied)
      else completeInsert db name "daily" today t date := by
  unfold complete_task
  rw [if_neg (by decide : ¬ ("daily" : String) = "weekly")]

theorem completionExists_congr (db db' : DB) (name : String) (d : Int)
    (h : db'.completions = db.completions) :
    completionExists db' name d = completionExists db name d := by
  unfold completionExists
  rw [h]

theorem completionExists_append_self (db : DB) (name : String) (d : Int)
    (t : String) :
    completionExists { db with completions := db.completions ++ [⟨name, d, t⟩] }
      name d = true := by
  unfold completionExists
  simp

theorem countCompletionRows_eq_zero (db : DB) (name : String) (d : Int)
    (h : completionExists db name d = false) :
    countCompletionRows db name d = 0 := by
  unfold countCompletionRows
  rw [List.length_eq_zero, List.filter_eq_nil_iff]
  intro c hc
  have hx := (List.any_eq_false.mp h) c hc
  simpa using hx

theorem countCompletionRows_append_self (db : DB) (name : String) (d : Int)
    (t : String) :
    countCompletionRows { db with completions := db.completions ++ [⟨name, d, t⟩] }
      name d = countCompletionRows db name d + 1 := by
  unfold countCompletionRows
  simp [List.filter_append]

theorem countCompletionRows_congr (db db' : DB) (name : String) (d : Int)
    (h : db'.completions = db.completions) :
    countCompletionRows db' name d = countCompletionRows db name d := by
  unfold countCompletionRows
  rw [h]

/-- Counterexample to C3: a weekly habit whose last completion is day 50.  The
call supplies referenceDate 53, which is less than 7 days after the last
completion, so the claim mandates rejection with no state change; but with the
machine clock at day 100 the code accepts and inserts — the 7-day check reads
datetime.now(), ignoring the supplied date. -/
theorem complete_task_weekly_ignores_supplied_date :
    lastCompletionDate exDbWeekly "h" = some 50 ∧
    (53 : Int) - 50 < 7 ∧
    (complete_task exDbWeekly "h" "weekly" 100 "12:00:00" (some 53)).2 =
      CompleteResult.recorded ∧
    ¬ (complete_task exDbWeekly "h" "weekly" 100 "12:00:00" (some 53)).2 =
      CompleteResult.alreadySatisfied ∧
    ¬ (complete_task exDbWeekly "h" "weekly" 100 "12:00:00" (some 53)).1 =
      exDbWeekly := by
  decide

/-- C3 as amended: for a weekly habit, complete_task rejects as AlreadySatisfied
with no state change exactly when the most recent completion date is less than
7 days before the current date (datetime.now()), a rolling window anchored at
the machine clock regardless of any supplied completion date. -/
theorem complete_task_weekly_rolling_window (db : DB) (name : String)
    (today : Int) (t : String) (date : Option Int) :
    ((complete_task db name "weekly" today t date).2 =
        CompleteResult.alreadySatisfied ↔
      ∃ last, lastCompletionDate db name = some last ∧ today - last < 7) ∧
    ((complete_task db name "weekly" today t date).2 =
        CompleteResult.alreadySatisfied →
      (complete_task db name "weekly" today t date).1 = db) := by
  have hu : complete_task db name "weekly" today t date =
      if is_completed_within_7_days db name today then
        (db, CompleteResult.alreadySatisfied)
      else completeInsert db name "weekly" today t date := by
    unfold complete_task
    rw [if_pos rfl]
  by_cases h7 : is_completed_within_7_days db name today = true
  · rw [hu, if_pos h7]
    exact ⟨⟨fun _ => (within7_iff db name today).mp h7, fun _ => rfl⟩, fun _ => rfl⟩
  · rw [hu, if_neg h7]
    exact ⟨⟨fun habs => absurd habs
        (completeInsert_ne_alreadySatisfied db name "weekly" today t date),
      fun hex => absurd ((within7_iff db name today).mpr hex) h7⟩,
      fun habs => absurd habs
        (completeInsert_ne_alreadySatisfied db name "weekly" today t date)⟩

/-- Witness for C3 (amended): with the last completion on day 50 and the clock
at day 52, the recorder rejects and leaves the state unchanged. -/
theorem complete_task_weekly_rolling_window_witness :
    (((complete_task exDbWeekly "h" "weekly" 52 "09:00:00" none).2 =
        CompleteResult.alreadySatisfied ↔
      ∃ last, lastCompletionDate exDbWeekly "h" = some last ∧
        (52 : Int) - last < 7) ∧
    ((complete_task exDbWeekly "h" "weekly" 52 "09:00:00" none).2 =
        CompleteResult.alreadySatisfied →
      (complete_task exDbWeekly "h" "weekly" 52 "09:00:00" none).1 = exDbWeekly)) ∧
    (complete_task exDbWeekly "h" "weekly" 52 "09:00:00" none).2 =
      CompleteResult.alreadySatisfied :=
  ⟨complete_task_weekly_rolling_window exDbWeekly "h" 52 "09:00:00" none,
   by decide⟩

/-- Counterexample to C4: a daily habit already completed on day 10.  Calling
complete_task with the explicit date 10 — a referenceDate whose calendar date
already has a completion — does not reject as AlreadySatisfied: the guard also
requires that no date argument was passed, so the duplicate insert reaches
SQLite and raises IntegrityError instead. -/
theorem complete_task_daily_explicit_date_raises :
    completionExists exDbDaily "h" 10 = true ∧
    (complete_task exDbDaily "h" "daily" 10 "12:00:00" (some 10)).2 =
      CompleteResult.integrityError ∧
    ¬ (complete_task exDbDaily "h" "daily" 10 "12:00:00" (some 10)).2 =
      CompleteResult.alreadySatisfied := by
  decide

/-- C4 as amended: for a daily habit, complete_task rejects as AlreadySatisfied
(with no state change) exactly when no explicit date is supplied and a
completion already exists for the current date; with an explicit date whose
calendar date already has a completion the insert raises IntegrityError and
changes nothing; and the default-date path records today once, leaves exactly
one row for (habit, today), and returns AlreadySatisfied on the second call. -/
theorem complete_task_daily_guard (db : DB) (name : String) (today : Int)
    (t : String) (date : Option Int) :
    ((complete_task db name "daily" today t date).2 =
        CompleteResult.alreadySatisfied ↔
      (date = none ∧ is_completed_today db name today = true)) ∧
    ((complete_task db name "daily" today t date).2 =
        CompleteResult.alreadySatisfied →
      (complete_task db name "daily" today t date).1 = db) ∧
    (∀ d, date = some d → completionExists db name d = true →
      complete_task db name "daily" today t date =
        (db, CompleteResult.integrityError)) ∧
    (is_completed_today db name today = false →
      (complete_task db name "daily" today t none).2 = CompleteResult.recorded ∧
      countCompletionRows (complete_task db name "daily" today t none).1 name
        today = 1 ∧
      complete_task (complete_task db name "daily" today t none).1 name "daily"
          today t none =
        ((complete_task db name "daily" today t none).1,
         CompleteResult.alreadySatisfied)) := by
  refine ⟨?_, ?_, ?_, ?_⟩
  · by_cases hg : ("daily" : String) = "daily" ∧
        is_completed_today db name today = true ∧ date = none
    · rw [complete_task_daily_unfold, if_pos hg]
      exact ⟨fun _ => ⟨hg.2.2, hg.2.1⟩, fun _ => rfl⟩
    · rw [complete_task_daily_unfold, if_neg hg]
      exact ⟨fun habs => absurd habs
          (completeInsert_ne_alreadySatisfied db name "daily" today t date),
        fun hx => absurd ⟨rfl, hx.2, hx.1⟩ hg⟩
  · by_cases hg : ("daily" : String) = "daily" ∧
        is_completed_today db name today = true ∧ date = none
    · rw [complete_task_daily_unfold, if_pos hg]
      exact fun _ => rfl
    · rw [complete_task_daily_unfold, if_neg hg]
      exact fun habs => absurd habs
        (completeInsert_ne_alreadySatisfied db name "daily" today t date)
  · intro d hdate hex
    subst hdate
    rw [complete_task_daily_unfold,
      if_neg (fun hg => by cases hg.2.2)]
    unfold completeInsert
    simp only [Option.getD_some]
    rw [insertCompletion_error db name d t hex]
  · intro hnc
    have hce : completionExists db name today = false := hnc
    have hins : insertCompletion db name today t =
        Except.ok { db with completions := db.completions ++ [⟨name, today, t⟩] } := by
      unfold insertCompletion
      rw [if_neg (by simp [hce])]
    have hfirst : complete_task db name "daily" today t none =
        ((update_streak
            { db with completions := db.completions ++ [⟨name, today, t⟩] }
            name "daily").1, CompleteResult.recorded) := by
      rw [complete_task_daily_unfold,
        if_neg (fun hg => by rw [hnc] at hg; cases hg.2.1)]
      unfold completeInsert
      simp only [Option.getD_none]
      rw [hins]
    have hcompl : ((update_streak
        { db with completions := db.completions ++ [⟨name, today, t⟩] }
        name "daily").1).completions =
        ({ db with completions := db.completions ++ [⟨name, today, t⟩] } : DB).completions :=
      update_streak_completions _ _ _
    refine ⟨by rw [hfirst], ?_, ?_⟩
    · rw [hfirst]
      rw [countCompletionRows_congr _ _ name today hcompl,
        countCompletionRows_append_self,
        countCompletionRows_eq_zero db name today hce]
    · have hcomp : is_completed_today ((update_streak
          { db with completions := db.completions ++ [⟨name, today, t⟩] }
          name "daily").1) name today = true := by
        show completionExists _ name today = true
        rw [completionExists_congr _ _ name today hcompl]
        exact completionExists_append_self db name today t
      rw [hfirst, complete_task_daily_unfold, if_pos ⟨rfl, hcomp, rfl⟩]

/-- Witness for C4 (amended): starting from a fresh daily habit, recording today
succeeds, leaves exactly one completion row for today, and a second identical
call returns AlreadySatisfied without changing the state. -/
theorem complete_task_daily_guard_witness :
    is_completed_today exDbFresh "m" 5 = false ∧
    ((complete_task exDbFresh "m" "daily" 5 "09:00:00" none).2 =
        CompleteResult.recorded ∧
      countCompletionRows (complete_task exDbFresh "m" "daily" 5 "09:00:00" none).1
        "m" 5 = 1 ∧
      complete_task (complete_task exDbFresh "m" "daily" 5 "09:00:00" none).1 "m"
          "daily" 5 "09:00:00" none =
        ((complete_task exDbFresh "m" "daily" 5 "09:00:00" none).1,
         CompleteResult.alreadySatisfied)) :=
  ⟨by decide,
   (complete_task_daily_guard exDbFresh "m" 5 "09:00:00" none).2.2.2 (by decide)⟩

/-- C7: the streak cache stays consistent across the mutations that touch a
habit's completions.  After a successful completion insert via complete_task,
every habits-row named for the completed habit stores exactly the Streak
Calculator's result (with the completed habit's periodicity) on that habit's
completion set in the new state.  delete removes every row named for the habit,
and leaves each surviving habit's ascending completion date list — the
calculator's input — unchanged, so the invariant is preserved for them. -/
theorem streak_cache_invariant (db : DB) (name p : String) (today : Int)
    (t : String) (date : Option Int) :
    ((complete_task db name p today t date).2 = CompleteResult.recorded →
      ∀ h' ∈ (complete_task db name p today t date).1.habits, h'.name = name →
        h'.streak = (computeStreak p
          (completionDatesAsc (complete_task db name p today t date).1 name) : Int)) ∧
    (∀ h' ∈ (delete db name).habits, ¬ h'.name = name) ∧
    (∀ h' ∈ (delete db name).habits,
      completionDatesAsc (delete db name) h'.name =
        completionDatesAsc db h'.name) := by
  refine ⟨?_, ?_, ?_⟩
  · intro hrec h' hmem hname
    obtain ⟨db1, hins, heq⟩ := complete_task_recorded db name p today t date hrec
    obtain ⟨hex, hdb1⟩ := insertCompletion_ok db db1 name (date.getD today) t hins
    have hne : ¬ completionDatesAsc db1 name = [] := by
      rw [hdb1]
      exact completionDatesAsc_append_ne_nil db name (date.getD today) t
    have hupd := update_streak_nonempty db1 name p hne
    rw [heq] at hmem
    rw [heq]
    have hpc : completionDatesAsc ((update_streak db1 name p).1) name =
        completionDatesAsc db1 name :=
      completionDatesAsc_congr db1 _ name (update_streak_completions db1 name p)
    rw [hpc]
    have hmem' : h' ∈ (setStreak db1 name
        (computeStreak p (completionDatesAsc db1 name))).habits := by
      rw [hupd] at hmem
      exact hmem
    exact setStreak_streak db1 name _ h' hmem' hname
  · intro h' hmem
    have hm : h' ∈ db.habits.filter (fun h0 => decide (¬ h0.name = name)) := hmem
    have h2 := (List.mem_filter.mp hm).2
    simpa using h2
  · intro h' hmem
    have hm : h' ∈ db.habits.filter (fun h0 => decide (¬ h0.name = name)) := hmem
    have hname : ¬ h'.name = name := by
      have h2 := (List.mem_filter.mp hm).2
      simpa using h2
    show sortAsc ((((delete db name).completions.filter
        (fun c => decide (c.habit_name = h'.name))).map (fun c => c.date))) =
      sortAsc (((db.completions.filter
        (fun c => decide (c.habit_name = h'.name))).map (fun c => c.date)))
    have hf : ((delete db name).completions).filter
        (fun c => decide (c.habit_name = h'.name)) =
        db.completions.filter (fun c => decide (c.habit_name = h'.name)) := by
      show ((db.completions.filter (fun c => decide (¬ c.habit_name = name))).filter
          (fun c => decide (c.habit_name = h'.name))) =
        db.completions.filter (fun c => decide (c.habit_name = h'.name))
      rw [List.filter_filter]
      apply List.filter_congr
      intro c _
      by_cases hc : c.habit_name = h'.name
      · simp [hc, hname]
      · simp [hc]
    rw [hf]

/-- Witness for C7: completing a fresh daily habit records it, and the stored
streak of its row equals the recomputed streak (1) over its completion set. -/
theorem streak_cache_invariant_witness :
    (complete_task exDbFresh "m" "daily" 5 "09:00:00" none).2 =
      CompleteResult.recorded ∧
    (∀ h' ∈ (complete_task exDbFresh "m" "daily" 5 "09:00:00" none).1.habits,
      h'.name = "m" →
      h'.streak = (computeStreak "daily" (completionDatesAsc
        (complete_task exDbFresh "m" "daily" 5 "09:00:00" none).1 "m") : Int)) ∧
    longest_streak_for_habit
      (complete_task exDbFresh "m" "daily" 5 "09:00:00" none).1 "m" = some 1 :=
  ⟨by decide,
   (streak_cache_invariant exDbFresh "m" "daily" 5 "09:00:00" none).1 (by decide),
   by decide⟩

/-- Counterexample to C8: inserting a completion for a (habit, date) pair that
already exists is not a silent no-op — the PRIMARY KEY (habit_name, date)
constraint makes the plain INSERT raise sqlite3.IntegrityError (the error case
of the model), which nothing in the code catches. -/
theorem insertCompletion_duplicate_raises :
    completionExists exDbDaily "h" 10 = true ∧
    insertCompletion exDbDaily "h" 10 "12:00:00" = Except.error () ∧
    ¬ insertCompletion exDbDaily "h" 10 "12:00:00" = Except.ok exDbDaily := by
  refine ⟨by decide, rfl, ?_⟩
  intro h
  exact Except.noConfusion (show Except.error () = Except.ok exDbDaily from h)

/-- C8 as amended: when the (habit, date) pair already exists the insert raises
an integrity error, propagated with no row created and no state change; when
the pair is absent it appends exactly one new row.  In neither case is a second
row for the pair created, but the duplicate path is an error, not a no-op. -/
theorem insertCompletion_duplicate_behavior (db : DB) (name : String) (d : Int)
    (t : String) :
    (completionExists db name d = true →
      insertCompletion db name d t = Except.error ()) ∧
    (completionExists db name d = false →
      insertCompletion db name d t =
        Except.ok { db with completions := db.completions ++ [⟨name, d, t⟩] }) := by
  constructor
  · intro h
    exact insertCompletion_error db name d t h
  · intro h
    unfold insertCompletion
    rw [if_neg (by simp [h])]

/-- Witness for C8 (amended): the duplicate pair ("h", 50) makes the insert
fail with the integrity error. -/
theorem insertCompletion_duplicate_behavior_witness :
    completionExists exDbWeekly "h" 50 = true ∧
    insertCompletion exDbWeekly "h" 50 "10:00:00" = Except.error () :=
  ⟨by decide,
   (insertCompletion_duplicate_behavior exDbWeekly "h" 50 "10:00:00").1 (by decide)⟩

/-- Counterexample to C9: recording a completion is not atomic.  From a daily
habit with stored streak 1 and one completion on day 10, complete_task on day
11 first commits the completion insert and only then, over a second
connection, commits the streak update.  The intermediate committed state —
reachable when a storage fault stops execution between the two commits —
contains the new completion while the stored streak (1) differs from the
Streak Calculator's result (2) on the stored completion set. -/
theorem record_completion_not_atomic :
    exDbDailyMid ∈ faultReachable exDbDaily
      (complete_task_commits exDbDaily "h" "daily" 11 "10:00:00" none) ∧
    completionExists exDbDailyMid "h" 11 = true ∧
    longest_streak_for_habit exDbDailyMid "h" = some 1 ∧
    computeStreak "daily" (completionDatesAsc exDbDailyMid "h") = 2 ∧
    ¬ longest_streak_for_habit exDbDailyMid "h" =
      some (computeStreak "daily" (completionDatesAsc exDbDailyMid "h") : Int) := by
  decide

/-- C9 as amended: on the success path the completion insert and the streak
update commit as two separate transactions (two sqlite connections, each with
its own commit).  A storage fault before the first commit leaves neither
effect; a fault between the commits leaves exactly the new completion row
appended with every habit row — including its streak — untouched; the fault
itself propagates to the caller uncaught. -/
theorem record_completion_two_transactions (db : DB) (name p : String)
    (today : Int) (t : String) (date : Option Int) (db1 : DB)
    (hins : insertCompletion db name (date.getD today) t = Except.ok db1)
    (hrec : (complete_task db name p today t date).2 = CompleteResult.recorded) :
    complete_task_commits db name p today t date =
      [db1, (update_streak db1 name p).1] ∧
    db1.habits = db.habits ∧
    db1.completions = db.completions ++ [⟨name, date.getD today, t⟩] ∧
    (complete_task db name p today t date).1 = (update_streak db1 name p).1 := by
  obtain ⟨db1', hins', heq⟩ := complete_task_recorded db name p today t date hrec
  have hdb1 : db1 = db1' := Except.ok.inj (hins.symm.trans hins')
  rw [← hdb1] at heq
  have hcommits : complete_task_commits db name p today t date =
      [db1, (update_streak db1 name p).1] := by
    unfold complete_task_commits commitsOfInsert
    by_cases hw : p = "weekly"
    · rw [if_pos hw]
      by_cases h7 : is_completed_within_7_days db name today = true
      · exfalso
        unfold complete_task at hrec
        rw [if_pos hw, if_pos h7] at hrec
        simp at hrec
      · rw [if_neg h7, hins]
    · rw [if_neg hw]
      by_cases hg : p = "daily" ∧ is_completed_today db name today = true ∧
          date = none
      · exfalso
        unfold complete_task at hrec
        rw [if_neg hw, if_pos hg] at hrec
        simp at hrec
      · rw [if_neg hg, hins]
  obtain ⟨hex, hdbeq⟩ := insertCompletion_ok db db1 name (date.getD today) t hins
  refine ⟨hcommits, ?_, ?_, heq⟩
  · rw [hdbeq]
  · rw [hdbeq]

/-- Witness for C9 (amended): the concrete two-commit trace for completing the
day-10 habit on day 11.  The intermediate committed state holds the new row
with the streaks untouched. -/
theorem record_completion_two_transactions_witness :
    insertCompletion exDbDaily "h" ((none : Option Int).getD 11) "10:00:00" =
      Except.ok exDbDailyMid ∧
    (complete_task exDbDaily "h" "daily" 11 "10:00:00" none).2 =
      CompleteResult.recorded ∧
    (complete_task_commits exDbDaily "h" "daily" 11 "10:00:00" none =
        [exDbDailyMid, (update_streak exDbDailyMid "h" "daily").1] ∧
      exDbDailyMid.habits = exDbDaily.habits ∧
      exDbDailyMid.completions = exDbDaily.completions ++
        [⟨"h", ((none : Option Int).getD 11), "10:00:00"⟩] ∧
      (complete_task exDbDaily "h" "daily" 11 "10:00:00" none).1 =
        (update_streak exDbDailyMid "h" "daily").1) :=
  ⟨rfl, by decide,
   record_completion_two_transactions exDbDaily "h" "daily" 11 "10:00:00" none
     exDbDailyMid rfl (by decide)⟩
